import Mathlib

/-!
Shallow embedding of the Feedback-Ingestion polling subsystem:
the data extractor (`src/services/polling/dataExtractor.ts`), the sliding
window rate limiter (`src/common/rateLimiter.ts`), the polling state
service (`src/services/polling/PollingStateService.ts`), the polling
scheduler (`PollingService`), and the two-phase Discourse client
(`src/services/polling/discourseClient.ts`).  JavaScript objects holding
JSON data are modelled by an inductive `Json` type; Redis hashes, sorted
sets and the scheduler's job map are modelled by association lists with
the same lookup/insert/delete semantics; `Date.now()` millisecond
timestamps are modelled as `Int`.
-/

namespace FeedbackIngestion

/-- JSON values as handled by the service (JavaScript values flowing
through `response.data` and request parameter objects). -/
inductive Json where
  | null : Json
  | bool (b : Bool) : Json
  | num (n : Int) : Json
  | str (s : String) : Json
  | arr (xs : List Json) : Json
  | obj (fields : List (String × Json)) : Json
deriving Repr

/-- JavaScript truthiness of a value (`undefined` is handled at lookup
sites via `Option`). -/
def truthy : Json → Bool
  | .null => false
  | .bool b => b
  | .num n => n != 0
  | .str s => s != ""
  | .arr _ => true
  | .obj _ => true

/-- Models `Array.isArray` check used by `extractData`'s final normalization:
a non-array value is wrapped into a one-element array. -/
def normalizeToArray : Json → List Json
  | .arr xs => xs
  | j => [j]

/-- One step of a JSONPath expression (the subset used by the polling
configurations: child-member access and a wildcard). -/
inductive PathStep where
  | member (name : String) : PathStep
  | wildcard : PathStep
deriving Repr, DecidableEq

/-- A JSONPath `$.a.b...` expression, the `$` root being implicit. -/
abbrev Path := List PathStep

/-- Values selected by one path step from one value, in document order
(the semantics of the `jsonpath` npm package for this subset). -/
def queryStep : PathStep → Json → List Json
  | .member name, .obj fields =>
      match fields.lookup name with
      | some v => [v]
      | none => []
  | .member _, _ => []
  | .wildcard, .obj fields => fields.map (fun f => f.2)
  | .wildcard, .arr xs => xs
  | .wildcard, _ => []

/-- Models `jsonpath.query(root, path)`: the list of all matches of the path in
the document. -/
def query (root : Json) (p : Path) : List Json :=
  p.foldl (fun acc step => acc.flatMap (queryStep step)) [root]

/-- Pagination style of a configuration (`data_extraction.pagination.type`). -/
inductive PaginationType where
  | offset : PaginationType
  | cursor : PaginationType
  | page : PaginationType
deriving Repr, DecidableEq

/-- Models `data_extraction.pagination` of an `IPollingConfig`. -/
structure PaginationConfig where
  ptype : PaginationType
  limit_param : Option String := none
  offset_param : Option String := none
  cursor_param : Option String := none
  page_param : Option String := none
  per_page_param : Option String := none
  next_page_path : Option Path := none
deriving Repr, DecidableEq

/-- Models `data_extraction` of an `IPollingConfig`. -/
structure DataExtractionConfig where
  response_path : Option Path := none
  pagination : Option PaginationConfig := none
deriving Repr, DecidableEq

/-- A JavaScript `Record<string, any>` of request parameters, modelled as
an association list in insertion order. -/
abbrev Params := List (String × Json)

/-- Property read `params[k]`: `none` models `undefined`. -/
def lookupParam (params : Params) (k : String) : Option Json :=
  params.lookup k

/-- Property write `params[k] = v`: replaces in place when the key
exists, otherwise appends (JavaScript object key order). -/
def setParam (params : Params) (k : String) (v : Json) : Params :=
  match params with
  | [] => [(k, v)]
  | (k₀, v₀) :: rest =>
      if k₀ = k then (k₀, v) :: rest else (k₀, v₀) :: setParam rest k v

/-- Truthiness of `params[k]` (an absent key reads as `undefined`,
which is falsy). -/
def truthyParam (params : Params) (k : String) : Bool :=
  match lookupParam params k with
  | some v => truthy v
  | none => false

/-- Models `params[k] || dflt` followed by `parseInt`, for the integer-valued
pagination parameters. -/
def intParamD (params : Params) (k : String) (dflt : Int) : Int :=
  match lookupParam params k with
  | some v =>
      if truthy v then
        match v with
        | .num n => n
        | .str s => (s.toInt?).getD dflt
        | _ => dflt
      else dflt
  | none => dflt

/-- Models `DataExtractor.extractData`: evaluate the configured response path
(if any) against the body; a single match is unwrapped, several matches
form the list; the result is normalized to an array. -/
def extractData (body : Json) (cfg : DataExtractionConfig) : List Json :=
  match cfg.response_path with
  | none => normalizeToArray body
  | some p =>
      match query body p with
      | [single] => normalizeToArray single
      | results => results

/-- Models `DataExtractor.hasNextPage`: cursor pagination looks for a non-null
match of `next_page_path`; page and offset pagination use the
non-empty-page heuristic. -/
def hasNextPage (body : Json) (cfg : DataExtractionConfig) : Bool :=
  match cfg.pagination with
  | none => false
  | some pg =>
      match pg.ptype with
      | .cursor =>
          match pg.next_page_path with
          | some np =>
              match query body np with
              | [] => false
              | c :: _ => match c with
                  | .null => false
                  | _ => true
          | none => false
      | .page => (extractData body cfg).length > 0
      | .offset => (extractData body cfg).length > 0

/-- Models `DataExtractor.getNextPageParams`: the fresh parameter object for the
next page request. -/
def getNextPageParams (body : Json) (cfg : DataExtractionConfig)
    (currentParams : Params) : Params :=
  match cfg.pagination with
  | none => []
  | some pg =>
      match pg.ptype with
      | .cursor =>
          match pg.cursor_param, pg.next_page_path with
          | some cp, some np =>
              match query body np with
              | [] => []
              | c :: _ => [(cp, c)]
          | _, _ => []
      | .page =>
          let p₁ : Params :=
            match pg.page_param with
            | some pp =>
                let currentPage := intParamD currentParams pp 1
                [(pp, .num (currentPage + 1))]
            | none => []
          match pg.per_page_param with
          | some ppp =>
              if (lookupParam currentParams ppp).isNone then
                setParam p₁ ppp (.num 50)
              else p₁
          | none => p₁
      | .offset =>
          match pg.offset_param, pg.limit_param with
          | some op, some lp =>
              let currentOffset := intParamD currentParams op 0
              let limit := intParamD currentParams lp 50
              [(op, .num (currentOffset + limit)), (lp, .num limit)]
          | _, _ => []

/-- Models `DataExtractor.getInitialPaginationParams`. -/
def getInitialPaginationParams (cfg : DataExtractionConfig) : Params :=
  match cfg.pagination with
  | none => []
  | some pg =>
      match pg.ptype with
      | .page =>
          let p₁ : Params :=
            match pg.page_param with
            | some pp => [(pp, .num 1)]
            | none => []
          match pg.per_page_param with
          | some ppp => setParam p₁ ppp (.num 50)
          | none => p₁
      | .offset =>
          let p₁ : Params :=
            match pg.offset_param with
            | some op => [(op, .num 0)]
            | none => []
          match pg.limit_param with
          | some lp => setParam p₁ lp (.num 50)
          | none => p₁
      | .cursor =>
          match pg.per_page_param, pg.limit_param with
          | some lp, _ => [(lp, .num 50)]
          | none, some lp => [(lp, .num 50)]
          | none, none => []

/-- Models `DataExtractor.addIncrementalParams`: when a last successful poll
time exists and none of `since`, `updated_after`, `modified_since` is
already present with a truthy value, set `since` to its ISO string.
A `Date` is modelled by its ISO-8601 string. -/
def addIncrementalParams (params : Params) (lastPollTimestamp : Option String) :
    Params :=
  match lastPollTimestamp with
  | none => params
  | some ts =>
      if !truthyParam params "since" && !truthyParam params "updated_after"
          && !truthyParam params "modified_since" then
        setParam params "since" (.str ts)
      else params

/-! ## RateLimiter (`src/common/rateLimiter.ts`)

The Redis sorted set behind one rate-limit key is modelled as a list of
distinct `Int` millisecond timestamps: `zAdd(key, {score: now, value:
now.toString()})` keys members by the rendered timestamp, so adding an
already-present timestamp is a no-op. -/

/-- The event timestamps stored under one rate-limit key. -/
abbrev RateWindow := List Int

/-- Models `zRemRangeByScore(key, 0, windowStart)`: drop events whose score
lies in the closed range `[0, windowStart]`. -/
def evictWindow (evs : RateWindow) (windowStart : Int) : RateWindow :=
  evs.filter (fun e => !(0 ≤ e ∧ e ≤ windowStart))

/-- Models `zAdd(key, {score: now, value: now.toString()})`: member set keyed
by the rendered timestamp, so a duplicate timestamp is not re-added. -/
def zaddMember (evs : RateWindow) (now : Int) : RateWindow :=
  if now ∈ evs then evs else evs ++ [now]

/-- Models `RateLimiter.isAllowed` on an available backend: returns the
decision, the updated window, and the expiry (seconds) set on the key
when a new event is recorded. -/
def isAllowed (evs : RateWindow) (now : Int) (windowSizeSeconds maxRequests : Nat) :
    Bool × RateWindow × Option Nat :=
  let windowStart := now - windowSizeSeconds * 1000
  let evs₁ := evictWindow evs windowStart
  let currentCount := evs₁.length
  if currentCount ≥ maxRequests then
    (false, evs₁, none)
  else
    (true, zaddMember evs₁ now, some (windowSizeSeconds * 2))

/-- Models `isAllowed` without the expiry component, for threading state. -/
def isAllowedStep (evs : RateWindow) (now : Int) (windowSizeSeconds maxRequests : Nat) :
    Bool × RateWindow :=
  ((isAllowed evs now windowSizeSeconds maxRequests).1,
   (isAllowed evs now windowSizeSeconds maxRequests).2.1)

/-- A sequence of `isAllowed` calls on one key at the given times,
collecting each call's decision. -/
def runCalls (windowSizeSeconds maxRequests : Nat) :
    List Int → RateWindow → List Bool
  | [], _ => []
  | t :: ts, evs =>
      let r := isAllowedStep evs t windowSizeSeconds maxRequests
      r.1 :: runCalls windowSizeSeconds maxRequests ts r.2

/-- Outcomes of the Redis operations one `isAllowed` call performs, in
program order: the eviction/count pipeline, the `zAdd`, the `expire`.
`Except.error` models a thrown backend error. -/
structure RateBackendOps where
  pipelineCard : Except Unit Nat
  zadd : Except Unit Unit
  expire : Except Unit Unit

/-- The body of `isAllowed`'s `try` block over fallible backend
operations. -/
def isAllowedTryBlock (ops : RateBackendOps) (maxRequests : Nat) :
    Except Unit Bool := do
  let currentCount ← ops.pipelineCard
  if currentCount ≥ maxRequests then
    return false
  else
    let _ ← ops.zadd
    let _ ← ops.expire
    return true

/-- Models `RateLimiter.isAllowed` including its `catch`: any thrown backend
error yields `true` (fail open). -/
def isAllowedCaught (ops : RateBackendOps) (maxRequests : Nat) : Bool :=
  match isAllowedTryBlock ops maxRequests with
  | .error _ => true
  | .ok b => b

/-! ## PollingStateService (`src/services/polling/PollingStateService.ts`)

The Redis hash under one `polling_state:*` key.  Field values are
strings in Redis; the failure counter round-trips through
`toString`/`parseInt`, so it is modelled as a `Nat`, and timestamp and
error fields are kept as strings. -/

/-- The stored hash fields (`none` models an absent field). -/
structure PollingStateHash where
  lastSuccessfulPoll : Option String := none
  lastPollAttempt : Option String := none
  consecutiveFailures : Option Nat := none
  lastError : Option String := none
  lastErrorTimestamp : Option String := none
deriving Repr, DecidableEq

/-- The hash of a key that was never written. -/
def emptyHash : PollingStateHash := {}

/-- The parsed `PollingState` returned to callers. -/
structure PollingState where
  lastSuccessfulPoll : Option String := none
  lastPollAttempt : Option String := none
  consecutiveFailures : Nat := 0
  lastError : Option String := none
  lastErrorTimestamp : Option String := none
deriving Repr, DecidableEq

/-- Models `PollingStateService.getPollingState`: default state when the hash
is empty, otherwise the parsed fields (absent counter parses as 0). -/
def getPollingState (h : PollingStateHash) : PollingState :=
  if h = emptyHash then
    { consecutiveFailures := 0 }
  else
    { lastSuccessfulPoll := h.lastSuccessfulPoll
      lastPollAttempt := h.lastPollAttempt
      consecutiveFailures := h.consecutiveFailures.getD 0
      lastError := h.lastError
      lastErrorTimestamp := h.lastErrorTimestamp }

/-- Models `PollingStateService.updateLastPollAttempt` (the TTL refresh is not
modelled). -/
def updateLastPollAttempt (h : PollingStateHash) (timestamp : String) :
    PollingStateHash :=
  { h with lastPollAttempt := some timestamp }

/-- Models `PollingStateService.updateSuccessfulPoll`: set the success
timestamp, zero the counter, delete both error fields. -/
def updateSuccessfulPoll (h : PollingStateHash) (timestamp : String) :
    PollingStateHash :=
  { h with lastSuccessfulPoll := some timestamp
           consecutiveFailures := some 0
           lastError := none
           lastErrorTimestamp := none }

/-- Models `PollingStateService.updateFailedPoll`: increment the counter, store
the error and its timestamp, and report whether the new count reaches
`maxFailures`. -/
def updateFailedPoll (h : PollingStateHash) (error timestamp : String)
    (maxFailures : Nat) : Bool × PollingStateHash :=
  let currentState := getPollingState h
  let newFailureCount := currentState.consecutiveFailures + 1
  let shouldDisable := newFailureCount ≥ maxFailures
  (shouldDisable,
   { h with consecutiveFailures := some newFailureCount
            lastError := some error
            lastErrorTimestamp := some timestamp })

/-- Models `PollingStateService.resetFailureCount`. -/
def resetFailureCount (h : PollingStateHash) : PollingStateHash :=
  { h with consecutiveFailures := some 0
           lastError := none
           lastErrorTimestamp := none }

/-- Models `PollingStateService.shouldDisablePolling`. -/
def shouldDisablePolling (h : PollingStateHash) (maxFailures : Nat) : Bool :=
  (getPollingState h).consecutiveFailures ≥ maxFailures

/-- A run of consecutive `updateFailedPoll` calls on one key, collecting
each call's `shouldDisable` return value and the final hash. -/
def recordFailures (maxFailures : Nat) (h : PollingStateHash) :
    List (String × String) → List Bool × PollingStateHash
  | [] => ([], h)
  | (e, t) :: rest =>
      let r := updateFailedPoll h e t maxFailures
      let tail := recordFailures maxFailures r.2 rest
      (r.1 :: tail.1, tail.2)

/-! ### State key derivation -/

/-- The base64 alphabet. -/
def base64Alphabet : List Char :=
  "ABCDEFGHIJKLMNOPQRSTUVWXYZabcdefghijklmnopqrstuvwxyz0123456789+/".toList

/-- Digit of the base64 alphabet. -/
def b64digit (n : Nat) : Char := base64Alphabet.getD n 'A'

/-- Standard base64 of a byte sequence, with padding. -/
def base64Bytes : List Nat → List Char
  | [] => []
  | [a] =>
      [b64digit (a / 4), b64digit (a % 4 * 16), '=', '=']
  | [a, b] =>
      [b64digit (a / 4), b64digit (a % 4 * 16 + b / 16),
       b64digit (b % 16 * 4), '=']
  | a :: b :: c :: rest =>
      b64digit (a / 4) :: b64digit (a % 4 * 16 + b / 16) ::
      b64digit (b % 16 * 4 + c / 64) :: b64digit (c % 64) ::
      base64Bytes rest

/-- Models `Buffer.from(s).toString('base64')` for the ASCII strings used as
instance URLs (code points below 128 encode to themselves in UTF-8). -/
def base64OfString (s : String) : String :=
  String.mk (base64Bytes (s.toList.map Char.toNat))

/-- Models `PollingStateService.getStateKey`:
`polling_state:{tenant}:{source}:{first 8 base64 chars of the URL}`. -/
def getStateKey (tenantId sourceType instanceUrl : String) : String :=
  let instanceHash := (base64OfString instanceUrl).take 8
  "polling_state:" ++ tenantId ++ ":" ++ sourceType ++ ":" ++ instanceHash

/-! ## PollingService (the scheduler)

`loadPollingConfigurations` and `executePoll` are modelled as pure state
transitions: the job map, the per-key rate windows and the state store
are threaded explicitly, and one poll cycle's outcome (behavior success
or thrown error) is an input. -/

/-- The fields of an `IPollingConfig` the scheduler reads. -/
structure PollingConfigM where
  tenant_id : String
  source_type : String
  instance_url : String
  endpoint : String
  query_params : List (String × String)
  data_extraction : DataExtractionConfig
  interval_seconds : Nat
  enabled : Bool
  max_failures_before_disable : Nat
  requests_per_minute : Nat
  requests_per_hour : Nat
deriving Repr, DecidableEq

/-- Models `PollingService.getJobKey`. -/
def getJobKey (c : PollingConfigM) : String :=
  c.tenant_id ++ ":" ++ c.source_type ++ ":" ++ c.instance_url

/-- The rate-limit key prefix built in `executePoll`. -/
def rateLimitKeyOf (c : PollingConfigM) : String :=
  c.tenant_id ++ ":" ++ c.source_type ++ ":api_calls"

/-- The state-store key of a configuration. -/
def stateKeyOf (c : PollingConfigM) : String :=
  getStateKey c.tenant_id c.source_type c.instance_url

/-- Models `PollingService.hasConfigChanged`: field-level comparison of
interval, endpoint, query params and extraction description
(`JSON.stringify` equality modelled as structural equality). -/
def hasConfigChanged (oldC newC : PollingConfigM) : Bool :=
  oldC.interval_seconds != newC.interval_seconds
    || oldC.endpoint != newC.endpoint
    || oldC.query_params != newC.query_params
    || oldC.data_extraction != newC.data_extraction

/-- The scheduler's job map (`Map<string, PollingJob>`): key, cached
config, in-flight flag; insertion order preserved. -/
abbrev Jobs := List (String × PollingConfigM × Bool)

/-- Models `this.jobs.get(k)`. -/
def jobsLookup (jobs : Jobs) (k : String) : Option (PollingConfigM × Bool) :=
  match jobs with
  | [] => none
  | (k₀, v₀) :: rest => if k₀ = k then some v₀ else jobsLookup rest k

/-- Models `stopPollingJob`: delete the key (clearing the timer has no pure
counterpart). -/
def jobsRemove (jobs : Jobs) (k : String) : Jobs :=
  match jobs with
  | [] => []
  | (k₀, v₀) :: rest =>
      if k₀ = k then jobsRemove rest k else (k₀, v₀) :: jobsRemove rest k

/-- Models `startPollingJob`: insert a fresh non-running job (only called when
the key is absent, where `Map.set` appends). -/
def jobsInsert (jobs : Jobs) (k : String) (c : PollingConfigM) : Jobs :=
  jobs ++ [(k, c, false)]

/-- The state store: Redis hashes keyed by state key. -/
abbrev StateStore := List (String × PollingStateHash)

/-- Reading a hash that was never written yields the empty hash. -/
def storeGet (s : StateStore) (k : String) : PollingStateHash :=
  match s with
  | [] => emptyHash
  | (k₀, h₀) :: rest => if k₀ = k then h₀ else storeGet rest k

/-- Writing a hash under a key. -/
def storeSet (s : StateStore) (k : String) (h : PollingStateHash) : StateStore :=
  match s with
  | [] => [(k, h)]
  | (k₀, h₀) :: rest =>
      if k₀ = k then (k₀, h) :: rest else (k₀, h₀) :: storeSet rest k h

/-- One iteration of the first loop of
`PollingService.loadPollingConfigurations` for one enabled config. -/
def reconcileStep (store : StateStore) (jobs : Jobs) (config : PollingConfigM) :
    Jobs :=
  let jobKey := getJobKey config
  let existingJob := jobsLookup jobs jobKey
  let shouldDisable :=
    shouldDisablePolling (storeGet store (stateKeyOf config))
      config.max_failures_before_disable
  if shouldDisable then
    jobsRemove jobs jobKey
  else
    let jobs₁ :=
      match existingJob with
      | some j => if hasConfigChanged j.1 config then jobsRemove jobs jobKey else jobs
      | none => jobs
    if (jobsLookup jobs₁ jobKey).isNone then jobsInsert jobs₁ jobKey config
    else jobs₁

/-- Models `PollingService.loadPollingConfigurations` on a successful config
read: process each enabled config, then stop jobs whose key no longer
appears among the enabled configs. -/
def loadPollingConfigurations (jobs : Jobs) (configs : List PollingConfigM)
    (store : StateStore) : Jobs :=
  let jobs₁ := configs.foldl (reconcileStep store) jobs
  jobs₁.filter (fun kv =>
    configs.any (fun c => getJobKey c == kv.1 && c.enabled))

/-- The per-key rate windows held by Redis. -/
abbrev Windows := List (String × RateWindow)

/-- A missing rate-limit key reads as the empty sorted set. -/
def winGet (w : Windows) (k : String) : RateWindow :=
  match w with
  | [] => []
  | (k₀, e₀) :: rest => if k₀ = k then e₀ else winGet rest k

/-- Writing one key's window. -/
def winSet (w : Windows) (k : String) (evs : RateWindow) : Windows :=
  match w with
  | [] => [(k, evs)]
  | (k₀, e₀) :: rest =>
      if k₀ = k then (k₀, evs) :: rest else (k₀, e₀) :: winSet rest k evs

/-- The outcome of `pollWithBehavior` (fetch plus publish): success, or
a thrown error with its message. -/
inductive PollOutcome where
  | success : PollOutcome
  | failure (msg : String) : PollOutcome
deriving Repr, DecidableEq

/-- The shared mutable state `executePoll` touches. -/
structure World where
  jobs : Jobs
  windows : Windows
  store : StateStore
deriving Repr, DecidableEq

/-- Models `PollingService.executePoll` at time `now` (ISO string `nowIso`):
reentrancy guard, the two rate-limit checks (both always executed, each
mutating its window when it allows), the attempt write, then the
success/failure state write, stopping the job when the failure count
reaches the threshold. -/
def executePoll (w : World) (jobKey : String) (now : Int) (nowIso : String)
    (outcome : PollOutcome) : World :=
  match jobsLookup w.jobs jobKey with
  | none => w
  | some (config, isRunning) =>
    if isRunning then w
    else
      let rlKey := rateLimitKeyOf config
      let minuteKey := rlKey ++ ":minute"
      let hourKey := rlKey ++ ":hour"
      let minuteRes :=
        isAllowedStep (winGet w.windows minuteKey) now 60 config.requests_per_minute
      let windows₁ := winSet w.windows minuteKey minuteRes.2
      let hourRes :=
        isAllowedStep (winGet windows₁ hourKey) now 3600 config.requests_per_hour
      let windows₂ := winSet windows₁ hourKey hourRes.2
      if !minuteRes.1 || !hourRes.1 then
        { w with windows := windows₂ }
      else
        let sk := stateKeyOf config
        let store₁ :=
          storeSet w.store sk (updateLastPollAttempt (storeGet w.store sk) nowIso)
        match outcome with
        | .success =>
            { jobs := w.jobs
              windows := windows₂
              store := storeSet store₁ sk
                (updateSuccessfulPoll (storeGet store₁ sk) nowIso) }
        | .failure msg =>
            let fr := updateFailedPoll (storeGet store₁ sk) msg nowIso
              config.max_failures_before_disable
            let store₂ := storeSet store₁ sk fr.2
            if fr.1 then
              { jobs := jobsRemove w.jobs jobKey
                windows := windows₂
                store := store₂ }
            else
              { jobs := w.jobs, windows := windows₂, store := store₂ }

/-! ## DiscourseClient (`src/services/polling/discourseClient.ts`) and the
two polling behaviors

HTTP calls are modelled as oracles: `search page` is one
`searchPostsInTimeRange` call, `details topicId postIds` one
`getPostDetails` call; `Except.error` models a thrown request error. -/

/-- The fields of a `DiscourseSearchPost` the workflow reads. -/
structure SearchPost where
  id : Int
  topic_id : Int
  topic_title_headline : String
deriving Repr, DecidableEq

/-- A `DiscourseDetailedPost` (payload fields beyond those the workflow
touches are collapsed into `cooked`). -/
structure DetailedPost where
  id : Int
  topic_id : Int
  cooked : String
  topic_title_headline : String
deriving Repr, DecidableEq

/-- Models `DiscourseClient.groupPostsByTopic`: group by `topic_id`, topics in
first-appearance order, posts in list order. -/
def groupPostsByTopic (posts : List SearchPost) : List (Int × List SearchPost) :=
  posts.foldl
    (fun acc p =>
      if acc.any (fun g => g.1 == p.topic_id) then
        acc.map (fun g => if g.1 == p.topic_id then (g.1, g.2 ++ [p]) else g)
      else acc ++ [(p.topic_id, [p])])
    []

/-- Models `DiscourseClient.mergePostData`: enrich each detailed post with the
matching search post's `topic_title_headline` (last entry wins in the
`Map` built from the search list; a missing or empty headline becomes
the empty string). -/
def mergePostData (searchPosts : List SearchPost)
    (detailedPosts : List DetailedPost) : List DetailedPost :=
  detailedPosts.map (fun dp =>
    match searchPosts.reverse.find? (fun sp => sp.id == dp.id) with
    | some sp =>
        { dp with topic_title_headline :=
            if sp.topic_title_headline = "" then "" else sp.topic_title_headline }
    | none => { dp with topic_title_headline := "" })

/-- A `getPostDetails` oracle: `Except.error` is a thrown request error,
`Except.ok none` a response without `post_stream.posts`. -/
abbrev DetailsOracle := Int → List Int → Except Unit (Option (List DetailedPost))

/-- The inner loop of `fetchPostsWithDetails` over one search page's
topic groups: a failed detail fetch is caught and the loop continues
with the other topics. -/
def processTopics (details : DetailsOracle)
    (groups : List (Int × List SearchPost)) : List DetailedPost :=
  groups.foldl
    (fun acc g =>
      match details g.1 (g.2.map (fun p => p.id)) with
      | .error _ => acc
      | .ok none => acc
      | .ok (some dposts) => acc ++ mergePostData g.2 dposts)
    []

/-- The records one topic group contributes to a cycle: nothing when its
detail fetch throws or the response lacks `post_stream.posts`, the
merged posts otherwise. -/
def groupFetchResult (details : DetailsOracle) (g : Int × List SearchPost) :
    List DetailedPost :=
  match details g.1 (g.2.map (fun p => p.id)) with
  | .error _ => []
  | .ok none => []
  | .ok (some dposts) => mergePostData g.2 dposts

/-- A `searchPostsInTimeRange` oracle per page number: `Except.ok none`
models a response missing the `posts` field. -/
abbrev SearchOracle := Nat → Except Unit (Option (List SearchPost))

/-- The page loop of `DiscourseClient.fetchPostsWithDetails`: search
errors propagate; an absent or empty `posts` list stops paging. -/
def fetchPages (search : SearchOracle) (details : DetailsOracle) :
    Nat → Nat → List DetailedPost → Except Unit (List DetailedPost)
  | 0, _, acc => .ok acc
  | fuel + 1, page, acc =>
      match search page with
      | .error e => .error e
      | .ok none => .ok acc
      | .ok (some []) => .ok acc
      | .ok (some posts) =>
          fetchPages search details fuel (page + 1)
            (acc ++ processTopics details (groupPostsByTopic posts))

/-- Models `DiscourseClient.fetchPostsWithDetails` for up to `maxPages` search
pages starting at page 1. -/
def fetchPostsWithDetails (search : SearchOracle) (details : DetailsOracle)
    (maxPages : Nat) : Except Unit (List DetailedPost) :=
  fetchPages search details maxPages 1 []

/-- A generic-behavior request oracle: the response body of one
`apiClient.makeRequest` with the given parameters, or a thrown error. -/
abbrev RequestOracle := Params → Except Unit Json

/-- JavaScript object spread `{...base, ...extra}`: keys of `extra`
override, existing keys keep their position, new keys are appended. -/
def mergeParams (base extra : Params) : Params :=
  extra.foldl (fun acc kv => setParam acc kv.1 kv.2) base

/-- The page loop of `DefaultPollingBehavior.poll`: a request error on
any page propagates and aborts the cycle, discarding the accumulated
records. -/
def defaultPollPages (request : RequestOracle) (cfg : DataExtractionConfig) :
    Nat → Params → List Json → Except Unit (List Json)
  | 0, _, acc => .ok acc
  | fuel + 1, params, acc =>
      match request params with
      | .error e => .error e
      | .ok body =>
          let extracted := extractData body cfg
          let acc₁ := acc ++ extracted
          if hasNextPage body cfg then
            defaultPollPages request cfg fuel
              (mergeParams params (getNextPageParams body cfg params)) acc₁
          else
            .ok acc₁

/-- Models `DefaultPollingBehavior.poll`: seed pagination parameters, add the
incremental `since` parameter from the job's last successful poll, then
run the bounded page loop (cap 10). -/
def defaultPoll (request : RequestOracle) (cfg : DataExtractionConfig)
    (lastSuccessfulPoll : Option String) : Except Unit (List Json) :=
  let params₀ :=
    addIncrementalParams (getInitialPaginationParams cfg) lastSuccessfulPoll
  defaultPollPages request cfg 10 params₀ []

/-! ## Lemmas shared across the development -/

/-- Unconditional description of `getPollingState`: both branches parse
the hash the same way. -/
theorem getPollingState_eq (h : PollingStateHash) :
    getPollingState h =
      { lastSuccessfulPoll := h.lastSuccessfulPoll
        lastPollAttempt := h.lastPollAttempt
        consecutiveFailures := h.consecutiveFailures.getD 0
        lastError := h.lastError
        lastErrorTimestamp := h.lastErrorTimestamp } := by
  unfold getPollingState
  split
  · next heq => subst heq; rfl
  · rfl

/-- The failure counter after one `updateFailedPoll` is the old counter
plus one. -/
theorem updateFailedPoll_count (h : PollingStateHash) (e t : String)
    (maxFailures : Nat) :
    (getPollingState (updateFailedPoll h e t maxFailures).2).consecutiveFailures
      = (getPollingState h).consecutiveFailures + 1 := by
  simp [updateFailedPoll, getPollingState_eq]

/-- The `shouldDisable` return value of `updateFailedPoll` is the
comparison of the incremented counter with the threshold. -/
theorem updateFailedPoll_fst (h : PollingStateHash) (e t : String)
    (maxFailures : Nat) :
    (updateFailedPoll h e t maxFailures).1
      = decide ((getPollingState h).consecutiveFailures + 1 ≥ maxFailures) := by
  simp [updateFailedPoll]

/-- Unfolding of `recordFailures` at a first call. -/
theorem recordFailures_cons (maxFailures : Nat) (h : PollingStateHash)
    (e t : String) (rest : List (String × String)) :
    recordFailures maxFailures h ((e, t) :: rest)
      = ((updateFailedPoll h e t maxFailures).1
            :: (recordFailures maxFailures (updateFailedPoll h e t maxFailures).2 rest).1,
         (recordFailures maxFailures (updateFailedPoll h e t maxFailures).2 rest).2) :=
  rfl

/-- The counter after a run of `updateFailedPoll` calls grows by the
number of calls. -/
theorem recordFailures_count (maxFailures : Nat) (calls : List (String × String)) :
    ∀ h : PollingStateHash,
      (getPollingState (recordFailures maxFailures h calls).2).consecutiveFailures
        = (getPollingState h).consecutiveFailures + calls.length := by
  induction calls with
  | nil => intro h; rfl
  | cons c rest ih =>
      intro h
      obtain ⟨e, t⟩ := c
      rw [recordFailures_cons]
      rw [ih (updateFailedPoll h e t maxFailures).2,
        updateFailedPoll_count h e t maxFailures, List.length_cons]
      omega

/-- The per-call results of a run of `updateFailedPoll` calls. -/
theorem recordFailures_results (maxFailures : Nat) (calls : List (String × String)) :
    ∀ h : PollingStateHash,
      (recordFailures maxFailures h calls).1
        = (List.range calls.length).map
            (fun i => decide ((getPollingState h).consecutiveFailures + i + 1 ≥ maxFailures)) := by
  induction calls with
  | nil => intro h; rfl
  | cons c rest ih =>
      intro h
      obtain ⟨e, t⟩ := c
      rw [recordFailures_cons]
      dsimp only
      rw [List.length_cons, List.range_succ_eq_map, List.map_cons, List.map_map]
      rw [ih (updateFailedPoll h e t maxFailures).2,
        updateFailedPoll_count h e t maxFailures, updateFailedPoll_fst]
      congr 1
      exact List.map_congr_left (fun a _ => by
        simp only [Function.comp_apply]
        exact decide_eq_decide.mpr (by omega))

/-- C4: starting from the default state, `k` consecutive
`updateFailedPoll` calls yield `consecutive_failures = k`, the `i`-th
call returning `true` exactly when `i ≥ maxFailures`; each call stores
the error message and its timestamp; a subsequent
`updateSuccessfulPoll` sets the last-success timestamp, resets the
counter to 0 and clears the stored error and its timestamp. -/
theorem claim4_failure_counter :
    (∀ (maxFailures : Nat) (calls : List (String × String)),
        (getPollingState (recordFailures maxFailures emptyHash calls).2).consecutiveFailures
            = calls.length
        ∧ (recordFailures maxFailures emptyHash calls).1
            = (List.range calls.length).map (fun i => decide (i + 1 ≥ maxFailures)))
    ∧ (∀ (h : PollingStateHash) (e t : String) (maxFailures : Nat),
        (updateFailedPoll h e t maxFailures).2.lastError = some e
        ∧ (updateFailedPoll h e t maxFailures).2.lastErrorTimestamp = some t
        ∧ ((updateFailedPoll h e t maxFailures).1 = true
            ↔ (getPollingState h).consecutiveFailures + 1 ≥ maxFailures))
    ∧ (∀ (h : PollingStateHash) (ts : String),
        (updateSuccessfulPoll h ts).lastSuccessfulPoll = some ts
        ∧ (getPollingState (updateSuccessfulPoll h ts)).consecutiveFailures = 0
        ∧ (updateSuccessfulPoll h ts).lastError = none
        ∧ (updateSuccessfulPoll h ts).lastErrorTimestamp = none) := by
  refine ⟨fun maxFailures calls => ?_, fun h e t maxFailures => ?_, fun h ts => ?_⟩
  · have hzero : (getPollingState emptyHash).consecutiveFailures = 0 := by
      simp [getPollingState_eq, emptyHash]
    constructor
    · rw [recordFailures_count maxFailures calls emptyHash, hzero]; omega
    · rw [recordFailures_results maxFailures calls emptyHash, hzero]
      exact List.map_congr_left (fun a _ => decide_eq_decide.mpr (by omega))
  · refine ⟨by simp [updateFailedPoll], by simp [updateFailedPoll], ?_⟩
    rw [updateFailedPoll_fst]
    simp
  · refine ⟨rfl, ?_, rfl, rfl⟩
    simp [updateSuccessfulPoll, getPollingState_eq]

/-- C5: any backend error thrown inside the rate limiter's `isAllowed`
makes the call return `true` (fail open); in particular an unavailable
store (the first pipeline operation throwing) yields `true`. -/
theorem claim5_rate_limiter_fails_open :
    (∀ (ops : RateBackendOps) (maxRequests : Nat) (e : Unit),
        ops.pipelineCard = .error e → isAllowedCaught ops maxRequests = true)
    ∧ (∀ (ops : RateBackendOps) (maxRequests : Nat) (e : Unit),
        isAllowedTryBlock ops maxRequests = .error e
          → isAllowedCaught ops maxRequests = true) := by
  constructor
  · intro ops maxRequests e hcard
    obtain ⟨pc, za, ex⟩ := ops
    cases hcard
    rfl
  · intro ops maxRequests e htry
    simp [isAllowedCaught, htry]

/-- Closed instance of C5: the check with an unavailable backend. -/
theorem claim5_witness :
    isAllowedCaught { pipelineCard := .error (), zadd := .ok (), expire := .ok () } 5
      = true :=
  claim5_rate_limiter_fails_open.1
    { pipelineCard := .error (), zadd := .ok (), expire := .ok () } 5 () rfl

/-- C6: extraction with no configured path normalizes the whole body; a
single path match is unwrapped (an array match yields its elements, an
object match becomes a one-element list); zero or several matches form
the result list as-is. -/
theorem claim6_extract_data :
    ∀ (body : Json) (cfg : DataExtractionConfig),
      (cfg.response_path = none → extractData body cfg = normalizeToArray body)
      ∧ (∀ p m, cfg.response_path = some p → query body p = [m] →
          extractData body cfg = normalizeToArray m)
      ∧ (∀ p xs, cfg.response_path = some p → query body p = [Json.arr xs] →
          extractData body cfg = xs)
      ∧ (∀ p fields, cfg.response_path = some p → query body p = [Json.obj fields] →
          extractData body cfg = [Json.obj fields])
      ∧ (∀ p rs, cfg.response_path = some p → query body p = rs → rs.length ≠ 1 →
          extractData body cfg = rs) := by
  intro body cfg
  refine ⟨fun hnone => ?_, fun p m hp hq => ?_, fun p xs hp hq => ?_,
      fun p fields hp hq => ?_, fun p rs hp hq hlen => ?_⟩
  · simp [extractData, hnone]
  · simp [extractData, hp, hq]
  · simp [extractData, hp, hq, normalizeToArray]
  · simp [extractData, hp, hq, normalizeToArray]
  · simp only [extractData, hp]
    rw [hq]
    cases rs with
    | nil => rfl
    | cons a tl =>
        cases tl with
        | nil => exact absurd rfl hlen
        | cons b l => rfl

/-- Closed instance of C6: a path selecting a two-element array yields
the two elements, not a singleton holding the array. -/
theorem claim6_witness :
    extractData
        (Json.obj [("items",
          Json.arr [Json.obj [("id", Json.num 1)], Json.obj [("id", Json.num 2)]])])
        { response_path := some [PathStep.member "items"] }
      = [Json.obj [("id", Json.num 1)], Json.obj [("id", Json.num 2)]] :=
  (claim6_extract_data _ _).2.2.1 [PathStep.member "items"] _ rfl rfl

/-- C7: with cursor pagination configured, a null or absent value at the
next-page path means no next page; a non-null value `v` means a next
page exists and the next request's cursor parameter is exactly `v`. -/
theorem claim7_cursor_pagination :
    ∀ (body : Json) (cfg : DataExtractionConfig) (pg : PaginationConfig)
      (cp : String) (np : Path) (currentParams : Params),
      cfg.pagination = some pg → pg.ptype = .cursor →
      pg.cursor_param = some cp → pg.next_page_path = some np →
      (query body np = [] → hasNextPage body cfg = false)
      ∧ (∀ rest, query body np = Json.null :: rest → hasNextPage body cfg = false)
      ∧ (∀ v rest, query body np = v :: rest → v ≠ Json.null →
          hasNextPage body cfg = true
          ∧ lookupParam (getNextPageParams body cfg currentParams) cp = some v) := by
  intro body cfg pg cp np currentParams hpg hty hcp hnp
  refine ⟨fun hq => ?_, fun rest hq => ?_, fun v rest hq hv => ⟨?_, ?_⟩⟩
  · simp [hasNextPage, hpg, hty, hnp, hq]
  · simp [hasNextPage, hpg, hty, hnp, hq]
  · simp only [hasNextPage, hpg, hty, hnp]
    rw [hq]
    cases v with
    | null => exact absurd rfl hv
    | bool b => rfl
    | num n => rfl
    | str s => rfl
    | arr xs => rfl
    | obj fields => rfl
  · simp only [getNextPageParams, hpg, hty, hcp, hnp]
    rw [hq]
    simp [lookupParam]

/-- Closed instance of C7: `next = "abc"` yields a next page and cursor
parameter `"abc"`. -/
theorem claim7_witness :
    hasNextPage (Json.obj [("next", Json.str "abc")])
        { pagination := some
            { ptype := .cursor
              cursor_param := some "cursor"
              next_page_path := some [PathStep.member "next"] } }
      = true
    ∧ lookupParam
        (getNextPageParams (Json.obj [("next", Json.str "abc")])
          { pagination := some
              { ptype := .cursor
                cursor_param := some "cursor"
                next_page_path := some [PathStep.member "next"] } }
          [])
        "cursor"
      = some (Json.str "abc") :=
  (claim7_cursor_pagination _ _ _ "cursor" [PathStep.member "next"] []
      rfl rfl rfl rfl).2.2 (Json.str "abc") [] rfl nofun

/-- C8 fails on the code: with `since` already present,
`addIncrementalParams` injects nothing at all, while the claim says the
timestamp is injected under `updated_after` (the first of the three
names not already present). -/
theorem claim8_counterexample :
    addIncrementalParams [("since", Json.str "2024-01-01T00:00:00.000Z")]
        (some "2024-06-01T00:00:00.000Z")
      = [("since", Json.str "2024-01-01T00:00:00.000Z")]
    ∧ lookupParam
        (addIncrementalParams [("since", Json.str "2024-01-01T00:00:00.000Z")]
          (some "2024-06-01T00:00:00.000Z"))
        "updated_after"
      = none :=
  ⟨rfl, rfl⟩

/-- C8 amended: with a last successful poll time present, the parameter
`since` (never any other name) is set to its ISO string, and only when
none of `since`, `updated_after`, `modified_since` already has a truthy
value; otherwise, and when the last poll time is absent, the parameters
are returned unchanged. -/
theorem claim8_amended_incremental_params :
    ∀ (params : Params) (ts : String),
      (addIncrementalParams params none = params)
      ∧ (truthyParam params "since" = false →
          truthyParam params "updated_after" = false →
          truthyParam params "modified_since" = false →
          addIncrementalParams params (some ts)
            = setParam params "since" (Json.str ts))
      ∧ (truthyParam params "since" = true ∨ truthyParam params "updated_after" = true
            ∨ truthyParam params "modified_since" = true →
          addIncrementalParams params (some ts) = params) := by
  intro params ts
  refine ⟨rfl, fun h₁ h₂ h₃ => ?_, fun hor => ?_⟩
  · simp [addIncrementalParams, h₁, h₂, h₃]
  · rcases hor with h | h | h <;> simp [addIncrementalParams, h]

/-- Closed instance of the amended C8: empty parameters receive
`since`. -/
theorem claim8_amended_witness :
    addIncrementalParams [] (some "2024-06-01T00:00:00.000Z")
      = [("since", Json.str "2024-06-01T00:00:00.000Z")] :=
  (claim8_amended_incremental_params [] "2024-06-01T00:00:00.000Z").2.1 rfl rfl rfl

/-! ## Rate-limiter lemmas (C2) -/

/-- One-call unfolding of `runCalls`. -/
theorem runCalls_cons (W N : Nat) (t : Int) (ts : List Int) (evs : RateWindow) :
    runCalls W N (t :: ts) evs
      = (isAllowedStep evs t W N).1 :: runCalls W N ts (isAllowedStep evs t W N).2 :=
  rfl

/-- Eviction is a no-op on a window of events newer than the cutoff. -/
theorem evictWindow_of_recent (evs : RateWindow) (ws : Int)
    (h : ∀ e ∈ evs, ws < e) : evictWindow evs ws = evs := by
  unfold evictWindow
  refine List.filter_eq_self.mpr (fun a ha => ?_)
  have := h a ha
  simp only [Bool.not_eq_true', decide_eq_false_iff_not]
  omega

/-- Eviction empties a window whose events are all at or before the
cutoff (and non-negative). -/
theorem evictWindow_of_stale (evs : RateWindow) (ws : Int)
    (h : ∀ e ∈ evs, 0 ≤ e ∧ e ≤ ws) : evictWindow evs ws = [] := by
  unfold evictWindow
  rw [List.filter_eq_nil_iff]
  intro a ha
  have := h a ha
  simp only [Bool.not_eq_true', decide_eq_false_iff_not, Decidable.not_not]
  omega

/-- Adding a fresh timestamp appends it. -/
theorem zaddMember_of_fresh (evs : RateWindow) (now : Int) (h : now ∉ evs) :
    zaddMember evs now = evs ++ [now] := by
  simp [zaddMember, h]

/-- A window at least as full as the limit denies every further call in
range of its events. -/
theorem runCalls_denied (W N : Nat) :
    ∀ (ts : List Int) (st : RateWindow),
      N ≤ st.length →
      (∀ e ∈ st, ∀ t ∈ ts, t - (W : Int) * 1000 < e) →
      runCalls W N ts st = List.replicate ts.length false := by
  intro ts
  induction ts with
  | nil => intro st _ _; rfl
  | cons t ts ih =>
      intro st hN hrec
      have hevict : evictWindow st (t - (W : Int) * 1000) = st :=
        evictWindow_of_recent st _ (fun e he => hrec e he t (by simp))
      have hstep : isAllowedStep st t W N = (false, st) := by
        simp [isAllowedStep, isAllowed, hevict, hN]
      rw [runCalls_cons, hstep]
      rw [List.length_cons, List.replicate_succ]
      exact congrArg (false :: ·)
        (ih st hN (fun e he u hu => hrec e he u (by simp [hu])))

/-- Calls at strictly increasing non-negative times all within less
than `W` seconds of each other: the window never loses an event, so the
`i`-th call is allowed exactly while the window has room. -/
theorem runCalls_span (W N : Nat) :
    ∀ (ts : List Int) (st : RateWindow),
      List.Pairwise (fun a b => a < b) ts →
      (∀ t ∈ ts, 0 ≤ t) →
      (∀ a ∈ ts, ∀ b ∈ ts, b - a < (W : Int) * 1000) →
      (∀ e ∈ st, ∀ t ∈ ts, t - (W : Int) * 1000 < e ∧ e < t) →
      runCalls W N ts st
        = (List.range ts.length).map (fun i => decide (st.length + i < N)) := by
  intro ts
  induction ts with
  | nil => intro st _ _ _ _; rfl
  | cons t ts ih =>
      intro st hpw hpos hspan hst
      have hpw' := List.pairwise_cons.mp hpw
      have hevict : evictWindow st (t - (W : Int) * 1000) = st :=
        evictWindow_of_recent st _ (fun e he => (hst e he t (by simp)).1)
      rw [List.length_cons, List.range_succ_eq_map, List.map_cons, List.map_map]
      by_cases hlen : N ≤ st.length
      · have hstep : isAllowedStep st t W N = (false, st) := by
          simp [isAllowedStep, isAllowed, hevict, hlen]
        rw [runCalls_cons, hstep]
        have hrest : runCalls W N ts st = List.replicate ts.length false :=
          runCalls_denied W N ts st hlen
            (fun e he u hu => (hst e he u (by simp [hu])).1)
        rw [hrest]
        have hhead : decide (st.length + 0 < N) = false :=
          decide_eq_false (by omega)
        rw [hhead]
        refine congrArg (false :: ·) ?_
        refine (List.eq_replicate_iff.mpr ⟨by simp, ?_⟩).symm
        intro b hb
        obtain ⟨i, _, hbi⟩ := List.mem_map.mp hb
        rw [← hbi]
        simp only [Function.comp_apply]
        exact decide_eq_false (by omega)
      · have hnotmem : t ∉ st := fun hmem =>
          absurd (hst t hmem t (by simp)).2 (lt_irrefl t)
        have hstep : isAllowedStep st t W N = (true, st ++ [t]) := by
          simp [isAllowedStep, isAllowed, hevict, hlen, zaddMember_of_fresh st t hnotmem]
        rw [runCalls_cons, hstep]
        have hhead : decide (st.length + 0 < N) = true :=
          decide_eq_true (by omega)
        rw [hhead]
        refine congrArg (true :: ·) ?_
        have hst' : ∀ x ∈ st ++ [t], ∀ u ∈ ts,
            u - (W : Int) * 1000 < x ∧ x < u := by
          intro x hx u hu
          rcases List.mem_append.mp hx with hx | hx
          · exact hst x hx u (by simp [hu])
          · have hxt : x = t := List.mem_singleton.mp hx
            have hs := hspan t (by simp) u (by simp [hu])
            have hlt := hpw'.1 u hu
            exact ⟨by omega, by omega⟩
        rw [ih (st ++ [t]) hpw'.2 (fun u hu => hpos u (by simp [hu]))
          (fun a ha b hb => hspan a (by simp [ha]) b (by simp [hb])) hst']
        refine List.map_congr_left (fun a _ => ?_)
        simp only [Function.comp_apply, List.length_append, List.length_cons,
          List.length_nil]
        exact decide_eq_decide.mpr (by omega)

/-- C2 fails on the code at two points: the sorted-set member is the
rendered timestamp, so calls sharing a millisecond collapse into one
event and a third call with limit 2 inside one span is still allowed;
and eviction removes events at exactly `now - W`, not only strictly
older ones, so with one event exactly `W` seconds old and limit 1 the
call is allowed rather than denied. -/
theorem claim2_counterexample :
    runCalls 60 2 [100000, 100000, 100000] [] = [true, true, true]
    ∧ (isAllowed [40000] 100000 60 1).1 = true
    ∧ (isAllowed [40000] 100000 60 1).2.1 = [100000] := by
  refine ⟨?_, ?_, ?_⟩ <;> decide

/-- C2 amended: each `isAllowed` call evicts the events at or before
`now - W` (keeping exactly the others), denies when the remaining count
reaches the limit, and otherwise records `now` as a member keyed by its
rendered timestamp with a `2 W` expiry and allows; consequently, for
calls at pairwise-distinct times within a span shorter than `W`
seconds, exactly the first `N` are allowed and every later one is
denied, and once all recorded events are at least `W` seconds old a new
call is allowed again. -/
theorem claim2_amended_rate_limiter :
    (∀ (evs : RateWindow) (now : Int) (W N : Nat),
        ((evictWindow evs (now - (W : Int) * 1000)).length ≥ N →
          isAllowed evs now W N = (false, evictWindow evs (now - (W : Int) * 1000), none))
        ∧ ((evictWindow evs (now - (W : Int) * 1000)).length < N →
          isAllowed evs now W N
            = (true, zaddMember (evictWindow evs (now - (W : Int) * 1000)) now,
               some (W * 2)))
        ∧ (∀ e, e ∈ evictWindow evs (now - (W : Int) * 1000)
            ↔ e ∈ evs ∧ ¬(0 ≤ e ∧ e ≤ now - (W : Int) * 1000)))
    ∧ (∀ (W N : Nat) (ts : List Int),
        List.Pairwise (fun a b => a < b) ts →
        (∀ t ∈ ts, 0 ≤ t) →
        (∀ a ∈ ts, ∀ b ∈ ts, b - a < (W : Int) * 1000) →
        runCalls W N ts [] = (List.range ts.length).map (fun i => decide (i < N)))
    ∧ (∀ (evs : RateWindow) (now : Int) (W N : Nat),
        1 ≤ N → (∀ e ∈ evs, 0 ≤ e ∧ e ≤ now - (W : Int) * 1000) →
        (isAllowed evs now W N).1 = true) := by
  refine ⟨fun evs now W N => ⟨fun hge => ?_, fun hlt => ?_, fun e => ?_⟩,
      fun W N ts hpw hpos hspan => ?_, fun evs now W N hN hstale => ?_⟩
  · simp [isAllowed, hge]
  · simp [isAllowed, Nat.not_le.mpr hlt]
  · simp only [evictWindow, List.mem_filter, Bool.not_eq_true',
      decide_eq_false_iff_not]
  · rw [runCalls_span W N ts [] hpw hpos hspan (by simp)]
    refine List.map_congr_left (fun a _ => ?_)
    simp only [List.length_nil]
    exact decide_eq_decide.mpr (by omega)
  · have hevict : evictWindow evs (now - (W : Int) * 1000) = [] :=
      evictWindow_of_stale evs _ hstale
    have hne : ¬((evictWindow evs (now - (W : Int) * 1000)).length ≥ N) := by
      rw [hevict]
      simp only [List.length_nil]
      omega
    simp [isAllowed, hne]

/-- Closed instance of the amended C2: limit 2, three distinct call
times within one minute, then a call one full window later. -/
theorem claim2_amended_witness :
    runCalls 60 2 [1000, 2000, 3000] [] = [true, true, false]
    ∧ (isAllowed [1000, 2000] 63000 60 2).1 = true := by
  constructor
  · have h := claim2_amended_rate_limiter.2.1 60 2 [1000, 2000, 3000]
      (by decide) (by decide) (by decide)
    simpa using h
  · exact claim2_amended_rate_limiter.2.2 [1000, 2000] 63000 60 2 (by decide)
      (by decide)

/-! ## Scheduler map lemmas (C1, C10) -/

/-- String concatenation is left-cancellative. -/
theorem string_append_left_cancel {a b c : String} (h : a ++ b = a ++ c) :
    b = c := by
  have hd : (a ++ b).data = (a ++ c).data := by rw [h]
  rw [String.data_append, String.data_append] at hd
  exact String.ext (List.append_cancel_left hd)

/-- Looking up a key just removed yields nothing. -/
theorem jobsLookup_remove_self (jobs : Jobs) (k : String) :
    jobsLookup (jobsRemove jobs k) k = none := by
  induction jobs with
  | nil => rfl
  | cons kv rest ih =>
      obtain ⟨k₀, v₀⟩ := kv
      by_cases hk : k₀ = k
      · simpa [jobsRemove, hk] using ih
      · simpa [jobsRemove, jobsLookup, hk] using ih

/-- Removing one key leaves other keys' entries unchanged. -/
theorem jobsLookup_remove_other (jobs : Jobs) (k k' : String) (h : k' ≠ k) :
    jobsLookup (jobsRemove jobs k) k' = jobsLookup jobs k' := by
  induction jobs with
  | nil => rfl
  | cons kv rest ih =>
      obtain ⟨k₀, v₀⟩ := kv
      have hne : ¬(k = k') := fun hc => h hc.symm
      by_cases hk : k₀ = k
      · simpa [jobsRemove, jobsLookup, hk, hne] using ih
      · by_cases hk' : k₀ = k'
        · simp [jobsRemove, jobsLookup, hk, hk', h]
        · simpa [jobsRemove, jobsLookup, hk, hk'] using ih

/-- Inserting under one key leaves other keys' entries unchanged. -/
theorem jobsLookup_insert_other (jobs : Jobs) (k k' : String)
    (c : PollingConfigM) (h : k' ≠ k) :
    jobsLookup (jobsInsert jobs k c) k' = jobsLookup jobs k' := by
  induction jobs with
  | nil =>
      have hne : ¬(k = k') := fun hc => h hc.symm
      simp [jobsInsert, jobsLookup, hne]
  | cons kv rest ih =>
      obtain ⟨k₀, v₀⟩ := kv
      by_cases hk' : k₀ = k'
      · simp [jobsInsert, jobsLookup, hk']
      · simpa [jobsInsert, jobsLookup, hk'] using ih

/-- A key absent from a map is absent from any filtering of it. -/
theorem jobsLookup_filter_none (jobs : Jobs)
    (p : String × PollingConfigM × Bool → Bool) (k : String)
    (h : jobsLookup jobs k = none) :
    jobsLookup (jobs.filter p) k = none := by
  induction jobs with
  | nil => rfl
  | cons kv rest ih =>
      obtain ⟨k₀, v₀⟩ := kv
      by_cases hk : k₀ = k
      · simp [jobsLookup, hk] at h
      · have hrest : jobsLookup rest k = none := by
          simpa [jobsLookup, hk] using h
        by_cases hp : p (k₀, v₀)
        · simpa [List.filter_cons, hp, jobsLookup, hk] using ih hrest
        · simpa [List.filter_cons, hp] using ih hrest

/-- A reconciliation step for one config only touches that config's job
key. -/
theorem reconcileStep_other (store : StateStore) (jobs : Jobs)
    (config : PollingConfigM) (k : String) (h : getJobKey config ≠ k) :
    jobsLookup (reconcileStep store jobs config) k = jobsLookup jobs k := by
  have hne : k ≠ getJobKey config := Ne.symm h
  simp only [reconcileStep]
  split
  · exact jobsLookup_remove_other jobs (getJobKey config) k hne
  · rcases hEx : jobsLookup jobs (getJobKey config) with _ | j
    · dsimp only
      rw [hEx]
      simp only [Option.isNone_none, eq_self_iff_true, if_true]
      exact jobsLookup_insert_other _ _ _ _ hne
    · dsimp only
      by_cases hch : hasConfigChanged j.1 config = true
      · rw [if_pos hch, jobsLookup_remove_self]
        simp only [Option.isNone_none, eq_self_iff_true, if_true]
        rw [jobsLookup_insert_other _ _ _ _ hne]
        exact jobsLookup_remove_other jobs (getJobKey config) k hne
      · rw [if_neg hch, hEx, if_neg (by simp)]

/-- A reconciliation step for a config whose stored failure count meets
its threshold leaves that config's key unscheduled. -/
theorem reconcileStep_disabled (store : StateStore) (jobs : Jobs)
    (config : PollingConfigM)
    (h : shouldDisablePolling (storeGet store (stateKeyOf config))
        config.max_failures_before_disable = true) :
    jobsLookup (reconcileStep store jobs config) (getJobKey config) = none := by
  simp only [reconcileStep, h, if_true]
  exact jobsLookup_remove_self jobs (getJobKey config)

/-- Folding reconciliation steps over configs with other job keys
preserves the absence of a key. -/
theorem foldl_reconcileStep_preserves_none (store : StateStore)
    (cs : List PollingConfigM) (k : String)
    (hk : ∀ c ∈ cs, getJobKey c ≠ k) :
    ∀ jobs : Jobs, jobsLookup jobs k = none →
      jobsLookup (cs.foldl (reconcileStep store) jobs) k = none := by
  induction cs with
  | nil => intro jobs h; exact h
  | cons c rest ih =>
      intro jobs h
      rw [List.foldl_cons]
      exact ih (fun x hx => hk x (by simp [hx]))
        (reconcileStep store jobs c)
        (by rw [reconcileStep_other store jobs c k (hk c (by simp))]; exact h)

/-- Reading a window key just written yields the written window. -/
theorem winGet_winSet_self (w : Windows) (k : String) (evs : RateWindow) :
    winGet (winSet w k evs) k = evs := by
  induction w with
  | nil => simp [winSet, winGet]
  | cons kv rest ih =>
      obtain ⟨k₀, e₀⟩ := kv
      by_cases hk : k₀ = k
      · simp [winSet, winGet, hk]
      · simpa [winSet, winGet, hk] using ih

/-- Writing one window key leaves other keys' windows unchanged. -/
theorem winGet_winSet_other (w : Windows) (k k' : String) (evs : RateWindow)
    (h : k ≠ k') : winGet (winSet w k evs) k' = winGet w k' := by
  induction w with
  | nil => simp [winSet, winGet, h]
  | cons kv rest ih =>
      obtain ⟨k₀, e₀⟩ := kv
      by_cases hk : k₀ = k
      · subst hk
        simp [winSet, winGet, h]
      · by_cases hk' : k₀ = k'
        · simp [winSet, winGet, hk, hk', Ne.symm h]
        · simpa [winSet, winGet, hk, hk'] using ih

/-- Reading a state key just written yields the written hash. -/
theorem storeGet_storeSet_self (s : StateStore) (k : String)
    (h : PollingStateHash) : storeGet (storeSet s k h) k = h := by
  induction s with
  | nil => simp [storeSet, storeGet]
  | cons kv rest ih =>
      obtain ⟨k₀, h₀⟩ := kv
      by_cases hk : k₀ = k
      · simp [storeSet, storeGet, hk]
      · simpa [storeSet, storeGet, hk] using ih

/-- The two rate-limit keys of one config are distinct. -/
theorem minuteKey_ne_hourKey (s : String) : s ++ ":minute" ≠ s ++ ":hour" := by
  intro h
  have := string_append_left_cancel h
  exact absurd this (by decide)

/-- The attempt-timestamp write does not change the failure counter. -/
theorem getPollingState_updateLastPollAttempt (h : PollingStateHash)
    (t : String) :
    (getPollingState (updateLastPollAttempt h t)).consecutiveFailures
      = (getPollingState h).consecutiveFailures := by
  simp [updateLastPollAttempt, getPollingState_eq]

/-- The window produced by an allowed call is the evicted window with
the call time added. -/
theorem isAllowedStep_true_snd (evs : RateWindow) (now : Int) (W N : Nat)
    (h : (isAllowedStep evs now W N).1 = true) :
    (isAllowedStep evs now W N).2
      = zaddMember (evictWindow evs (now - (W : Int) * 1000)) now := by
  by_cases hlen : (evictWindow evs (now - (W : Int) * 1000)).length ≥ N
  · exfalso
    simp [isAllowedStep, isAllowed, hlen] at h
  · simp [isAllowedStep, isAllowed, hlen]

/-- The call time is a member of the window after `zaddMember`. -/
theorem mem_zaddMember_self (evs : RateWindow) (now : Int) :
    now ∈ zaddMember evs now := by
  unfold zaddMember
  by_cases h : now ∈ evs
  · simp [h]
  · simp [h]

/-! ## Key-derivation lemmas (C3) -/

/-- C3 fails on the code: two configurations sharing tenant and source
type but with different instance URLs get the same rate-limit key (the
key has no instance component), and here even the same state-store key
(the URLs share their first 6 bytes, hence their first 8 base64
characters). -/
theorem claim3_counterexample :
    rateLimitKeyOf
        ⟨"t1", "DISCOURSE", "https://a.example.com", "https://a.example.com/api",
          [], ⟨none, none⟩, 300, true, 5, 60, 1000⟩
      = rateLimitKeyOf
        ⟨"t1", "DISCOURSE", "https://b.example.com", "https://b.example.com/api",
          [], ⟨none, none⟩, 300, true, 5, 60, 1000⟩
    ∧ stateKeyOf
        ⟨"t1", "DISCOURSE", "https://a.example.com", "https://a.example.com/api",
          [], ⟨none, none⟩, 300, true, 5, 60, 1000⟩
      = stateKeyOf
        ⟨"t1", "DISCOURSE", "https://b.example.com", "https://b.example.com/api",
          [], ⟨none, none⟩, 300, true, 5, 60, 1000⟩
    ∧ ("https://a.example.com" : String) ≠ "https://b.example.com" := by
  refine ⟨?_, ?_, ?_⟩ <;> decide

/-- C3 amended: two configurations sharing tenant and source type but
with different instance URLs run under distinct scheduler job keys, yet
they share one rate-limit key (rate limiting is per tenant and source
type, with no instance component), and their state-store keys are
distinct exactly when the first 8 base64 characters of their instance
URLs differ. -/
theorem claim3_amended_instance_keys :
    ∀ c₁ c₂ : PollingConfigM,
      c₁.tenant_id = c₂.tenant_id → c₁.source_type = c₂.source_type →
      c₁.instance_url ≠ c₂.instance_url →
      getJobKey c₁ ≠ getJobKey c₂
      ∧ rateLimitKeyOf c₁ = rateLimitKeyOf c₂
      ∧ (stateKeyOf c₁ = stateKeyOf c₂
          ↔ (base64OfString c₁.instance_url).take 8
              = (base64OfString c₂.instance_url).take 8) := by
  intro c₁ c₂ ht hs hu
  refine ⟨?_, ?_, ?_, ?_⟩
  · intro hk
    unfold getJobKey at hk
    rw [ht, hs] at hk
    exact hu (string_append_left_cancel hk)
  · unfold rateLimitKeyOf
    rw [ht, hs]
  · intro hk
    unfold stateKeyOf getStateKey at hk
    rw [ht, hs] at hk
    exact string_append_left_cancel hk
  · intro hh
    unfold stateKeyOf getStateKey
    rw [ht, hs, hh]

/-- Closed instance of the amended C3: same tenant and source, URLs
differing already in their first bytes, hence distinct state keys but
still one shared rate-limit key. -/
theorem claim3_amended_witness :
    getJobKey
        ⟨"t1", "DISCOURSE", "https://forum.acme.io", "https://forum.acme.io/api",
          [], ⟨none, none⟩, 300, true, 5, 60, 1000⟩
      ≠ getJobKey
        ⟨"t1", "DISCOURSE", "http://other.net", "http://other.net/api",
          [], ⟨none, none⟩, 300, true, 5, 60, 1000⟩
    ∧ rateLimitKeyOf
        ⟨"t1", "DISCOURSE", "https://forum.acme.io", "https://forum.acme.io/api",
          [], ⟨none, none⟩, 300, true, 5, 60, 1000⟩
      = rateLimitKeyOf
        ⟨"t1", "DISCOURSE", "http://other.net", "http://other.net/api",
          [], ⟨none, none⟩, 300, true, 5, 60, 1000⟩
    ∧ (stateKeyOf
          ⟨"t1", "DISCOURSE", "https://forum.acme.io", "https://forum.acme.io/api",
            [], ⟨none, none⟩, 300, true, 5, 60, 1000⟩
        = stateKeyOf
          ⟨"t1", "DISCOURSE", "http://other.net", "http://other.net/api",
            [], ⟨none, none⟩, 300, true, 5, 60, 1000⟩
        ↔ (base64OfString "https://forum.acme.io").take 8
            = (base64OfString "http://other.net").take 8) :=
  claim3_amended_instance_keys
    ⟨"t1", "DISCOURSE", "https://forum.acme.io", "https://forum.acme.io/api",
      [], ⟨none, none⟩, 300, true, 5, 60, 1000⟩
    ⟨"t1", "DISCOURSE", "http://other.net", "http://other.net/api",
      [], ⟨none, none⟩, 300, true, 5, 60, 1000⟩
    rfl rfl (by decide)

/-! ## Scheduler theorems (C1, C10) -/

/-- Folding reconciliation over a config list containing a disabled
config (with unique job keys) leaves that config's key unscheduled. -/
theorem foldl_reconcileStep_disabled (store : StateStore) :
    ∀ (cs : List PollingConfigM) (jobs : Jobs) (c : PollingConfigM),
      c ∈ cs → (cs.map getJobKey).Nodup →
      shouldDisablePolling (storeGet store (stateKeyOf c))
          c.max_failures_before_disable = true →
      jobsLookup (cs.foldl (reconcileStep store) jobs) (getJobKey c) = none := by
  intro cs
  induction cs with
  | nil => intro jobs c hc; exact absurd hc (by simp)
  | cons c' rest ih =>
      intro jobs c hc hnd hdis
      rw [List.foldl_cons]
      rcases List.mem_cons.mp hc with rfl | hc'
      · have habs : jobsLookup (reconcileStep store jobs c) (getJobKey c) = none :=
          reconcileStep_disabled store jobs c hdis
        have hkeys : ∀ x ∈ rest, getJobKey x ≠ getJobKey c := by
          intro x hx heq
          exact (List.nodup_cons.mp hnd).1
            (by rw [← heq]; exact List.mem_map_of_mem getJobKey hx)
        exact foldl_reconcileStep_preserves_none store rest (getJobKey c) hkeys
          _ habs
      · exact ih (reconcileStep store jobs c') c hc'
          (List.nodup_cons.mp hnd).2 hdis

/-- C1: a job key whose persisted consecutive-failure count has reached
the config's threshold is not scheduled: a reconciliation pass over any
store in that condition (hence every pass until the count is reset
below the threshold) leaves the key without a job — stopping a running
one and not starting a new one — and a failing poll cycle whose new
count reaches the threshold removes the job immediately. -/
theorem claim1_circuit_breaker :
    (∀ (jobs : Jobs) (configs : List PollingConfigM) (store : StateStore)
        (c : PollingConfigM),
        c ∈ configs →
        (configs.map getJobKey).Nodup →
        shouldDisablePolling (storeGet store (stateKeyOf c))
            c.max_failures_before_disable = true →
        jobsLookup (loadPollingConfigurations jobs configs store)
            (getJobKey c) = none)
    ∧ (∀ (w : World) (jobKey : String) (now : Int) (nowIso msg : String)
        (c : PollingConfigM),
        jobsLookup w.jobs jobKey = some (c, false) →
        (isAllowedStep (winGet w.windows (rateLimitKeyOf c ++ ":minute")) now 60
            c.requests_per_minute).1 = true →
        (isAllowedStep (winGet w.windows (rateLimitKeyOf c ++ ":hour")) now 3600
            c.requests_per_hour).1 = true →
        (getPollingState (storeGet w.store (stateKeyOf c))).consecutiveFailures + 1
            ≥ c.max_failures_before_disable →
        jobsLookup (executePoll w jobKey now nowIso (.failure msg)).jobs jobKey
          = none) := by
  constructor
  · intro jobs configs store c hc hnd hdis
    simp only [loadPollingConfigurations]
    exact jobsLookup_filter_none _ _ _
      (foldl_reconcileStep_disabled store configs jobs c hc hnd hdis)
  · intro w jobKey now nowIso msg c hlook hMin hHour hcnt
    have hne := minuteKey_ne_hourKey (rateLimitKeyOf c)
    simp only [executePoll]
    rw [hlook]
    dsimp only
    rw [if_neg (by simp)]
    rw [winGet_winSet_other _ _ _ _ hne]
    rw [hMin, hHour]
    rw [if_neg (by simp)]
    rw [storeGet_storeSet_self]
    rw [updateFailedPoll_fst, getPollingState_updateLastPollAttempt,
      decide_eq_true hcnt]
    rw [if_pos rfl]
    exact jobsLookup_remove_self w.jobs jobKey

/-- Closed instance of C1: a stored count of 3 with threshold 3 makes
reconciliation drop the key, and a failing cycle that takes the count
from 2 to 3 removes the job at once. -/
theorem claim1_witness :
    jobsLookup
        (loadPollingConfigurations
          [("t1:DISCOURSE:https://a.example.com",
            ⟨"t1", "DISCOURSE", "https://a.example.com",
              "https://a.example.com/api", [], ⟨none, none⟩, 300, true, 3, 10, 100⟩,
            false)]
          [⟨"t1", "DISCOURSE", "https://a.example.com",
            "https://a.example.com/api", [], ⟨none, none⟩, 300, true, 3, 10, 100⟩]
          [(stateKeyOf
              ⟨"t1", "DISCOURSE", "https://a.example.com",
                "https://a.example.com/api", [], ⟨none, none⟩, 300, true, 3, 10, 100⟩,
            ⟨none, none, some 3, some "boom", some "2024-06-01T00:00:00.000Z"⟩)])
        "t1:DISCOURSE:https://a.example.com"
      = none
    ∧ jobsLookup
        (executePoll
          { jobs :=
              [("t1:DISCOURSE:https://a.example.com",
                ⟨"t1", "DISCOURSE", "https://a.example.com",
                  "https://a.example.com/api", [], ⟨none, none⟩, 300, true, 3, 10, 100⟩,
                false)]
            windows := []
            store :=
              [(stateKeyOf
                  ⟨"t1", "DISCOURSE", "https://a.example.com",
                    "https://a.example.com/api", [], ⟨none, none⟩, 300, true, 3, 10, 100⟩,
                ⟨none, none, some 2, none, none⟩)] }
          "t1:DISCOURSE:https://a.example.com" 1000 "2024-06-01T00:00:01.000Z"
          (.failure "boom")).jobs
        "t1:DISCOURSE:https://a.example.com"
      = none := by
  constructor
  · exact claim1_circuit_breaker.1 _ _ _
      ⟨"t1", "DISCOURSE", "https://a.example.com",
        "https://a.example.com/api", [], ⟨none, none⟩, 300, true, 3, 10, 100⟩
      (by decide) (by decide) (by decide)
  · exact claim1_circuit_breaker.2 _ _ 1000 _ _
      ⟨"t1", "DISCOURSE", "https://a.example.com",
        "https://a.example.com/api", [], ⟨none, none⟩, 300, true, 3, 10, 100⟩
      (by decide) (by decide) (by decide) (by decide)

/-- C10: when the per-minute check allows but the per-hour check
denies, the cycle is skipped with the state store untouched and the job
kept, yet the per-minute window has already been updated by the allowed
call: it is the evicted window with the call time recorded, so the
skipped cycle still consumes a unit of the per-minute budget. -/
theorem claim10_minute_budget_consumed :
    ∀ (w : World) (jobKey : String) (now : Int) (nowIso : String)
      (outcome : PollOutcome) (c : PollingConfigM),
      jobsLookup w.jobs jobKey = some (c, false) →
      (isAllowedStep (winGet w.windows (rateLimitKeyOf c ++ ":minute")) now 60
          c.requests_per_minute).1 = true →
      (isAllowedStep (winGet w.windows (rateLimitKeyOf c ++ ":hour")) now 3600
          c.requests_per_hour).1 = false →
      (executePoll w jobKey now nowIso outcome).store = w.store
      ∧ (executePoll w jobKey now nowIso outcome).jobs = w.jobs
      ∧ winGet (executePoll w jobKey now nowIso outcome).windows
            (rateLimitKeyOf c ++ ":minute")
          = zaddMember
              (evictWindow (winGet w.windows (rateLimitKeyOf c ++ ":minute"))
                (now - (60 : Nat) * 1000)) now
      ∧ now ∈ winGet (executePoll w jobKey now nowIso outcome).windows
            (rateLimitKeyOf c ++ ":minute") := by
  intro w jobKey now nowIso outcome c hlook hMin hHour
  have hne := minuteKey_ne_hourKey (rateLimitKeyOf c)
  have hexec : executePoll w jobKey now nowIso outcome
      = { w with windows :=
            (winSet
              (winSet w.windows (rateLimitKeyOf c ++ ":minute")
                (isAllowedStep (winGet w.windows (rateLimitKeyOf c ++ ":minute"))
                  now 60 c.requests_per_minute).2)
              (rateLimitKeyOf c ++ ":hour")
              (isAllowedStep
                (winGet w.windows (rateLimitKeyOf c ++ ":hour")) now 3600
                c.requests_per_hour).2) } := by
    simp only [executePoll]
    rw [hlook]
    dsimp only
    rw [if_neg (by simp)]
    rw [winGet_winSet_other _ _ _ _ hne]
    rw [hMin, hHour]
    rw [if_pos (by simp)]
  have hwin : winGet (executePoll w jobKey now nowIso outcome).windows
      (rateLimitKeyOf c ++ ":minute")
      = (isAllowedStep (winGet w.windows (rateLimitKeyOf c ++ ":minute")) now 60
          c.requests_per_minute).2 := by
    rw [hexec]
    exact (winGet_winSet_other _ _ _ _ (Ne.symm hne)).trans
      (winGet_winSet_self _ _ _)
  have hsnd := isAllowedStep_true_snd _ now 60 c.requests_per_minute hMin
  refine ⟨by rw [hexec], by rw [hexec], ?_, ?_⟩
  · rw [hwin, hsnd]
  · rw [hwin, hsnd]
    exact mem_zaddMember_self _ now

/-- Closed instance of C10: an exhausted hour window skips the cycle
but the minute window still records the call time. -/
theorem claim10_witness :
    (executePoll
        { jobs :=
            [("t1:DISCOURSE:https://a.example.com",
              ⟨"t1", "DISCOURSE", "https://a.example.com",
                "https://a.example.com/api", [], ⟨none, none⟩, 300, true, 5, 10, 1⟩,
              false)]
          windows := [("t1:DISCOURSE:api_calls:hour", [500])]
          store := [] }
        "t1:DISCOURSE:https://a.example.com" 1000 "2024-06-01T00:00:01.000Z"
        PollOutcome.success).store
      = []
    ∧ 1000 ∈ winGet
        (executePoll
          { jobs :=
              [("t1:DISCOURSE:https://a.example.com",
                ⟨"t1", "DISCOURSE", "https://a.example.com",
                  "https://a.example.com/api", [], ⟨none, none⟩, 300, true, 5, 10, 1⟩,
                false)]
            windows := [("t1:DISCOURSE:api_calls:hour", [500])]
            store := [] }
          "t1:DISCOURSE:https://a.example.com" 1000 "2024-06-01T00:00:01.000Z"
          PollOutcome.success).windows
        ("t1:DISCOURSE:api_calls" ++ ":minute") := by
  have h := claim10_minute_budget_consumed
    { jobs :=
        [("t1:DISCOURSE:https://a.example.com",
          ⟨"t1", "DISCOURSE", "https://a.example.com",
            "https://a.example.com/api", [], ⟨none, none⟩, 300, true, 5, 10, 1⟩,
          false)]
      windows := [("t1:DISCOURSE:api_calls:hour", [500])]
      store := [] }
    "t1:DISCOURSE:https://a.example.com" 1000 "2024-06-01T00:00:01.000Z"
    PollOutcome.success
    ⟨"t1", "DISCOURSE", "https://a.example.com",
      "https://a.example.com/api", [], ⟨none, none⟩, 300, true, 5, 10, 1⟩
    (by decide) (by decide) (by decide)
  exact ⟨h.1, h.2.2.2⟩

/-! ## Two-phase behavior theorems (C9) -/

/-- The topic loop is the concatenation of each group's contribution. -/
theorem processTopics_eq_flatMap (details : DetailsOracle) :
    ∀ groups : List (Int × List SearchPost),
      processTopics details groups = groups.flatMap (groupFetchResult details) := by
  have haux : ∀ (groups : List (Int × List SearchPost)) (acc : List DetailedPost),
      groups.foldl
        (fun acc g =>
          match details g.1 (g.2.map (fun p => p.id)) with
          | .error _ => acc
          | .ok none => acc
          | .ok (some dposts) => acc ++ mergePostData g.2 dposts)
        acc
      = acc ++ groups.flatMap (groupFetchResult details) := by
    intro groups
    induction groups with
    | nil => intro acc; simp
    | cons g gs ih =>
        intro acc
        rw [List.foldl_cons, List.flatMap_cons]
        have hstep :
            (match details g.1 (g.2.map (fun p => p.id)) with
              | .error _ => acc
              | .ok none => acc
              | .ok (some dposts) => acc ++ mergePostData g.2 dposts)
            = acc ++ groupFetchResult details g := by
          unfold groupFetchResult
          rcases hd : details g.1 (g.2.map (fun p => p.id)) with e | r
          · rw [hd]
            simp
          · rcases r with _ | d
            · rw [hd]
              simp
            · rw [hd]
        rw [hstep, ih, List.append_assoc]
  intro groups
  exact haux groups []

/-- C9: in the two-phase Discourse workflow a failing topic-group
detail fetch is skipped — the other groups of the page still contribute
their records and the cycle result is their concatenation; the whole
cycle succeeds whenever the search calls succeed, whatever the detail
oracle throws — while in the generic behavior a request error on a page
propagates and the cycle returns the error, discarding accumulated
records. -/
theorem claim9_group_failure_skipped :
    (∀ (details : DetailsOracle) (pre post : List (Int × List SearchPost))
        (t : Int) (ps : List SearchPost),
        details t (ps.map (fun p => p.id)) = .error () →
        processTopics details (pre ++ (t, ps) :: post)
          = processTopics details pre ++ processTopics details post)
    ∧ (∀ (search : SearchOracle) (details : DetailsOracle) (maxPages : Nat),
        (∀ p, ∃ r, search p = .ok r) →
        ∃ res, fetchPostsWithDetails search details maxPages = .ok res)
    ∧ (∀ (request : RequestOracle) (cfg : DataExtractionConfig) (fuel : Nat)
        (params : Params) (acc : List Json) (e : Unit),
        request params = .error e →
        defaultPollPages request cfg (fuel + 1) params acc = .error e) := by
  refine ⟨fun details pre post t ps herr => ?_, fun search details maxPages hs => ?_,
      fun request cfg fuel params acc e herr => ?_⟩
  · rw [processTopics_eq_flatMap, processTopics_eq_flatMap,
      processTopics_eq_flatMap, List.flatMap_append, List.flatMap_cons]
    have hzero : groupFetchResult details (t, ps) = [] := by
      unfold groupFetchResult
      rw [herr]
    rw [hzero, List.nil_append]
  · have haux : ∀ (fuel page : Nat) (acc : List DetailedPost),
        ∃ res, fetchPages search details fuel page acc = .ok res := by
      intro fuel
      induction fuel with
      | zero => exact fun page acc => ⟨acc, rfl⟩
      | succ n ih =>
          intro page acc
          obtain ⟨r, hr⟩ := hs page
          simp only [fetchPages]
          rw [hr]
          rcases r with _ | posts
          · exact ⟨acc, rfl⟩
          · rcases posts with _ | ⟨p, ps⟩
            · exact ⟨acc, rfl⟩
            · exact ih (page + 1) _
    exact haux maxPages 1 []
  · simp only [defaultPollPages]
    rw [herr]

/-- Closed instance of C9: topic 2's detail fetch throws, topics 1 and
3 still contribute; an all-empty search keeps the cycle successful; the
generic loop propagates a first-page request error. -/
theorem claim9_witness :
    processTopics
        (fun tid _ =>
          if tid = 2 then .error ()
          else .ok (some [⟨10 * tid, tid, "content", ""⟩]))
        ([(1, [⟨10, 1, "Title one"⟩])]
          ++ (2, [⟨20, 2, "Title two"⟩]) :: [(3, [⟨30, 3, "Title three"⟩])])
      = processTopics
          (fun tid _ =>
            if tid = 2 then .error ()
            else .ok (some [⟨10 * tid, tid, "content", ""⟩]))
          [(1, [⟨10, 1, "Title one"⟩])]
        ++ processTopics
          (fun tid _ =>
            if tid = 2 then .error ()
            else .ok (some [⟨10 * tid, tid, "content", ""⟩]))
          [(3, [⟨30, 3, "Title three"⟩])]
    ∧ (∃ res, fetchPostsWithDetails (fun _ => .ok (some []))
        (fun _ _ => .error ()) 5 = .ok res)
    ∧ defaultPollPages (fun _ => .error ()) ⟨none, none⟩ (9 + 1) [] []
        = .error () := by
  refine ⟨?_, ?_, ?_⟩
  · exact claim9_group_failure_skipped.1
      (fun tid _ =>
        if tid = 2 then .error ()
        else .ok (some [⟨10 * tid, tid, "content", ""⟩]))
      [(1, [⟨10, 1, "Title one"⟩])] [(3, [⟨30, 3, "Title three"⟩])]
      2 [⟨20, 2, "Title two"⟩] rfl
  · exact claim9_group_failure_skipped.2.1 (fun _ => .ok (some []))
      (fun _ _ => .error ()) 5 (fun p => ⟨some [], rfl⟩)
  · exact claim9_group_failure_skipped.2.2 (fun _ => .error ()) ⟨none, none⟩
      9 [] [] () rfl

end FeedbackIngestion
